import Mathlib

set_option maxRecDepth 100000

/-!
# Verification of the crypto_swap atomic-swap core

Shallow embedding of the repository's atomic-swap core:

* the SHA-256 hashing used by `verifySecret` (src/bitcoin/atomicSwap.js,
  src/dogecoin/atomicSwap.js) and by the escrow contract's secret guard,
  implemented from FIPS 180-4 exactly as node's `crypto.createHash('sha256')`
  computes it, over `Nat` bytes with explicit `% 2^32` wrapping;
* the Solidity escrow contract `AtomicSwap` (initiate/withdraw/refund and the
  read predicates), as explicit state passing over `Nat`-keyed records, with
  Solidity's revert modelled as `Except.error` carrying the require message;
* the Bitcoin script layer: `bitcoin.script.compile`/`decompile` push
  encoding, the HTLC redeem-script builder, the funding and withdrawal
  transaction builders, and secret extraction.

Hex strings at the JS interfaces are abstracted to the byte lists they
encode; transactions are modelled structurally (the bitcoinjs hex
serialization round trip is the identity on this structure).
-/

namespace CryptoSwap

/-! ## Bytes -/

/-- Big-endian value of a byte list (bytes abstract hex strings). -/
def bytesToNat : List Nat → Nat
  | [] => 0
  | b :: t => b * 256 ^ t.length + bytesToNat t

/-- The `n`-byte big-endian encoding of `k % 256^n`. -/
def natToBytes : Nat → Nat → List Nat
  | 0, _ => []
  | n + 1, k => (k / 256 ^ n % 256) :: natToBytes n k

/-- Big-endian 4-byte serialization of a 32-bit word. -/
def u32be (x : Nat) : List Nat :=
  [x / 16777216 % 256, x / 65536 % 256, x / 256 % 256, x % 256]

/-- Big-endian 8-byte serialization of a 64-bit word. -/
def u64be (x : Nat) : List Nat :=
  [x / 72057594037927936 % 256, x / 281474976710656 % 256,
   x / 1099511627776 % 256, x / 4294967296 % 256,
   x / 16777216 % 256, x / 65536 % 256, x / 256 % 256, x % 256]

/-! ## SHA-256 (FIPS 180-4), as computed by node crypto / Solidity sha256 -/

/-- The 64 SHA-256 round constants. -/
def sha256K : List Nat :=
  [1116352408, 1899447441, 3049323471, 3921009573, 961987163,
   1508970993, 2453635748, 2870763221, 3624381080, 310598401,
   607225278, 1426881987, 1925078388, 2162078206, 2614888103,
   3248222580, 3835390401, 4022224774, 264347078, 604807628,
   770255983, 1249150122, 1555081692, 1996064986, 2554220882,
   2821834349, 2952996808, 3210313671, 3336571891, 3584528711,
   113926993, 338241895, 666307205, 773529912, 1294757372,
   1396182291, 1695183700, 1986661051, 2177026350, 2456956037,
   2730485921, 2820302411, 3259730800, 3345764771, 3516065817,
   3600352804, 4094571909, 275423344, 430227734, 506948616,
   659060556, 883997877, 958139571, 1322822218, 1537002063,
   1747873779, 1955562222, 2024104815, 2227730452, 2361852424,
   2428436474, 2756734187, 3204031479, 3329325298]

/-- Right rotation of a 32-bit word. -/
def rotr32 (x n : Nat) : Nat := ((x >>> n) ||| (x <<< (32 - n))) % 4294967296

/-- `Ch(x,y,z)` with 32-bit complement. -/
def sha256Ch (x y z : Nat) : Nat := (x &&& y) ^^^ ((x ^^^ 4294967295) &&& z)

/-- `Maj(x,y,z)`. -/
def sha256Maj (x y z : Nat) : Nat := (x &&& y) ^^^ (x &&& z) ^^^ (y &&& z)

/-- Upper-case sigma-0. -/
def bsig0 (x : Nat) : Nat := rotr32 x 2 ^^^ rotr32 x 13 ^^^ rotr32 x 22

/-- Upper-case sigma-1. -/
def bsig1 (x : Nat) : Nat := rotr32 x 6 ^^^ rotr32 x 11 ^^^ rotr32 x 25

/-- Lower-case sigma-0. -/
def ssig0 (x : Nat) : Nat := rotr32 x 7 ^^^ rotr32 x 18 ^^^ (x >>> 3)

/-- Lower-case sigma-1. -/
def ssig1 (x : Nat) : Nat := rotr32 x 17 ^^^ rotr32 x 19 ^^^ (x >>> 10)

/-- The eight SHA-256 initial hash values, as a tuple. -/
def sha256Init : Nat × Nat × Nat × Nat × Nat × Nat × Nat × Nat :=
  (1779033703, 3144134277, 1013904242, 2773480762, 1359893119, 2600822924, 528734635, 1541459225)

/-- SHA-256 padding: append `0x80`, zeros, then the 64-bit big-endian bit
length, to a multiple of 64 bytes. -/
def sha256Pad (msg : List Nat) : List Nat :=
  msg ++ [0x80] ++ List.replicate ((64 - (msg.length + 9) % 64) % 64) 0 ++ u64be (8 * msg.length)

/-- The 64-word message schedule of one 64-byte block. -/
def msgSchedule (block : List Nat) : List Nat :=
  let w0 := (List.range 16).map fun t =>
    block.getD (4 * t) 0 * 16777216 + block.getD (4 * t + 1) 0 * 65536 +
      block.getD (4 * t + 2) 0 * 256 + block.getD (4 * t + 3) 0
  (List.range 48).foldl
    (fun w _ =>
      w ++ [(ssig1 (w.getD (w.length - 2) 0) + w.getD (w.length - 7) 0 +
             ssig0 (w.getD (w.length - 15) 0) + w.getD (w.length - 16) 0) % 4294967296])
    w0

/-- One SHA-256 compression step over a 64-byte block. -/
def sha256Compress (hs : Nat × Nat × Nat × Nat × Nat × Nat × Nat × Nat) (block : List Nat) :
    Nat × Nat × Nat × Nat × Nat × Nat × Nat × Nat :=
  let w := msgSchedule block
  match hs with
  | (ha, hb, hc, hd, he, hf, hg, hh) =>
    match (List.range 64).foldl
        (fun st t =>
          match st with
          | (a, b, c, d, e, f, g, h) =>
            let t1 := (h + bsig1 e + sha256Ch e f g + sha256K.getD t 0 + w.getD t 0) % 4294967296
            let t2 := (bsig0 a + sha256Maj a b c) % 4294967296
            ((t1 + t2) % 4294967296, a, b, c, (d + t1) % 4294967296, e, f, g))
        (ha, hb, hc, hd, he, hf, hg, hh) with
    | (a, b, c, d, e, f, g, h) =>
      ((ha + a) % 4294967296, (hb + b) % 4294967296, (hc + c) % 4294967296, (hd + d) % 4294967296,
       (he + e) % 4294967296, (hf + f) % 4294967296, (hg + g) % 4294967296, (hh + h) % 4294967296)

/-- SHA-256 of a byte list, as a 32-byte digest. -/
def sha256 (msg : List Nat) : List Nat :=
  let p := sha256Pad msg
  match (List.range (p.length / 64)).foldl
      (fun hs i => sha256Compress hs ((p.drop (64 * i)).take 64)) sha256Init with
  | (a, b, c, d, e, f, g, h) =>
    u32be a ++ u32be b ++ u32be c ++ u32be d ++ u32be e ++ u32be f ++ u32be g ++ u32be h

/-- SHA-256 of a 32-byte word (Solidity `sha256(abi.encodePacked(bytes32))`),
as a 256-bit word. -/
def sha256Word (x : Nat) : Nat := bytesToNat (sha256 (natToBytes 32 x))

/-- `verifySecret` from src/bitcoin/atomicSwap.js and src/dogecoin/atomicSwap.js:
hash the secret's bytes with SHA-256 and compare with the expected digest
(hex strings abstracted to the bytes they encode). -/
def verifySecret (secret hashedSecret : List Nat) : Bool :=
  sha256 secret == hashedSecret

/-- The digest of the 33-byte encoding of `k`, read back as a number: the
map whose non-injectivity below exhibits a SHA-256 collision. -/
def sha256DigestVal (k : Nat) : Nat := bytesToNat (sha256 (natToBytes 33 k))

/-! ## Escrow contract model (contracts/AtomicSwap.sol, src/unnamed/part_007)

Addresses and `bytes32` values are `Nat` (the zero address is `0`);
`block.timestamp` and `msg.sender`/`msg.value` are explicit parameters; a
Solidity revert is `Except.error` carrying the require message, so a
reverted call returns no state at all — transitions commit atomically or
not at all. The ERC20 `transferFrom`/`transfer` external calls move value
outside the contract's storage and are not part of the state. -/

/-- One record of the contract's `mapping(bytes32 => Swap)`. -/
structure Swap where
  initiator : Nat
  participant : Nat
  token : Nat
  amount : Nat
  hashedSecret : Nat
  timelock : Nat
  withdrawn : Bool
  refunded : Bool
  exists_ : Bool
deriving DecidableEq, Repr

/-- The mapping default: an all-zero record, as Solidity storage. -/
def emptySwap : Swap :=
  { initiator := 0, participant := 0, token := 0, amount := 0, hashedSecret := 0,
    timelock := 0, withdrawn := false, refunded := false, exists_ := false }

/-- Contract storage: the `swaps` mapping. -/
def State := Nat → Swap

/-- Storage of a freshly deployed contract. -/
def initialState : State := fun _ => emptySwap

/-- `initiateSwap`: the five require guards in source order, then the
ETH/ERC20 value guard, then record creation. -/
def initiateSwap (s : State) (sender msgValue now swapId participant token amount hashedSecret timelock : Nat) :
    Except String State :=
  if (s swapId).exists_ then .error "Swap already exists"
  else if participant = 0 then .error "Invalid participant"
  else if amount = 0 then .error "Amount must be greater than 0"
  else if timelock ≤ now then .error "Timelock must be in the future"
  else if hashedSecret = 0 then .error "Invalid hashed secret"
  else if token = 0 ∧ msgValue ≠ amount then .error "Incorrect ETH amount"
  else if token ≠ 0 ∧ msgValue ≠ 0 then .error "ETH not needed for token swap"
  else .ok fun id =>
    if id = swapId then
      { initiator := sender, participant := participant, token := token, amount := amount,
        hashedSecret := hashedSecret, timelock := timelock,
        withdrawn := false, refunded := false, exists_ := true }
    else s id

/-- `withdraw`: the `withdrawable` modifier guards in source order, then the
participant check from the function body, then `withdrawn := true`. -/
def withdraw (s : State) (sender now swapId secret : Nat) : Except String State :=
  let sw := s swapId
  if ¬sw.exists_ then .error "Swap does not exist"
  else if sw.withdrawn then .error "Already withdrawn"
  else if sw.refunded then .error "Already refunded"
  else if sha256Word secret ≠ sw.hashedSecret then .error "Invalid secret"
  else if sw.timelock ≤ now then .error "Timelock expired"
  else if sender ≠ sw.participant then .error "Only participant can withdraw"
  else .ok fun id => if id = swapId then { sw with withdrawn := true } else s id

/-- `refund`: the `refundable` modifier guards in source order, then
`refunded := true`. -/
def refund (s : State) (sender now swapId : Nat) : Except String State :=
  let sw := s swapId
  if ¬sw.exists_ then .error "Swap does not exist"
  else if sw.withdrawn then .error "Already withdrawn"
  else if sw.refunded then .error "Already refunded"
  else if now < sw.timelock then .error "Timelock not expired"
  else if sender ≠ sw.initiator then .error "Only initiator can refund"
  else .ok fun id => if id = swapId then { sw with refunded := true } else s id

/-- `getSwap`: requires the record to exist, then returns its fields. -/
def getSwap (s : State) (swapId : Nat) :
    Except String (Nat × Nat × Nat × Nat × Nat × Nat × Bool × Bool) :=
  let sw := s swapId
  if ¬sw.exists_ then .error "Swap does not exist"
  else .ok (sw.initiator, sw.participant, sw.token, sw.amount, sw.hashedSecret, sw.timelock,
    sw.withdrawn, sw.refunded)

/-- `isWithdrawable`: the view predicate; note it takes no caller. -/
def isWithdrawable (s : State) (now swapId secret : Nat) : Bool :=
  let sw := s swapId
  sw.exists_ && !sw.withdrawn && !sw.refunded &&
    (sha256Word secret == sw.hashedSecret) && decide (now < sw.timelock)

/-- `isRefundable`: the view predicate; note it takes no caller. -/
def isRefundable (s : State) (now swapId : Nat) : Bool :=
  let sw := s swapId
  sw.exists_ && !sw.withdrawn && !sw.refunded && decide (sw.timelock ≤ now)

/-- One successful contract call, with arbitrary caller, value, time and
arguments. -/
def StepRel (s s' : State) : Prop :=
  (∃ sender msgValue now swapId participant token amount hashedSecret timelock,
      initiateSwap s sender msgValue now swapId participant token amount hashedSecret timelock = .ok s') ∨
  (∃ sender now swapId secret, withdraw s sender now swapId secret = .ok s') ∨
  (∃ sender now swapId, refund s sender now swapId = .ok s')

/-- States reachable from a fresh deployment by any sequence of successful
initiate, withdraw and refund calls. -/
def Reachable (s : State) : Prop := Relation.ReflTransGen StepRel initialState s

/-- Per-record invariant: the two terminal flags are never both set, and a
settled record exists. -/
def SwapInv (sw : Swap) : Prop :=
  ¬(sw.withdrawn = true ∧ sw.refunded = true) ∧
    ((sw.withdrawn = true ∨ sw.refunded = true) → sw.exists_ = true)

/-- Whole-storage invariant. -/
def StateInv (s : State) : Prop := ∀ id, SwapInv (s id)

/-- A concrete post-initiate storage used to instantiate theorems: one open
ETH swap at id 1, initiator 5, participant 7, amount 100, a nonzero stored
hash, timelock 1000. -/
def s1 : State := fun id =>
  if id = 1 then
    { initiator := 5, participant := 7, token := 0, amount := 100, hashedSecret := 5,
      timelock := 1000, withdrawn := false, refunded := false, exists_ := true }
  else initialState id

/-- Like `s1` but storing the actual digest of the secret 42, so that the
secret guard can be exercised concretely. -/
def s2 : State := fun id =>
  if id = 1 then
    { initiator := 5, participant := 7, token := 0, amount := 100,
      hashedSecret := sha256Word 42, timelock := 1000,
      withdrawn := false, refunded := false, exists_ := true }
  else initialState id

/-! ## Bitcoin script layer (src/bitcoin/atomicSwap.js)

Scripts are byte lists. `scriptCompile`/`scriptDecompile` model the
`bitcoin.script.compile`/`decompile` pair the source calls, including the
canonical minimal-push conversion of zero- and one-byte buffers and the
null result on a truncated push. `scriptDecompile` runs on structural fuel
(one unit per parsed chunk, never exhausted since a chunk consumes at
least one byte), so it evaluates by kernel reduction. -/

/-- A decompiled script chunk: a plain opcode or a pushed buffer. -/
inductive ScriptElem where
  | num (op : Nat)
  | buf (bytes : List Nat)
deriving DecidableEq, Repr

def OP_0 : Nat := 0x00
def OP_PUSHDATA1 : Nat := 0x4c
def OP_PUSHDATA2 : Nat := 0x4d
def OP_PUSHDATA4 : Nat := 0x4e
def OP_1NEGATE : Nat := 0x4f
def OP_RESERVED : Nat := 0x50
def OP_TRUE : Nat := 0x51
def OP_IF : Nat := 0x63
def OP_ELSE : Nat := 0x67
def OP_ENDIF : Nat := 0x68
def OP_DROP : Nat := 0x75
def OP_EQUALVERIFY : Nat := 0x88
def OP_SHA256 : Nat := 0xa8
def OP_CHECKSIG : Nat := 0xac
def OP_CHECKLOCKTIMEVERIFY : Nat := 0xb1

/-- bitcoinjs `asMinimalOP`: the canonical opcode replacing a zero- or
one-byte push, when one exists. -/
def asMinimalOp (data : List Nat) : Option Nat :=
  match data with
  | [] => some OP_0
  | [b] =>
    if 1 ≤ b ∧ b ≤ 16 then some (OP_RESERVED + b)
    else if b = 0x81 then some OP_1NEGATE
    else none
  | _ => none

/-- Push-opcode encoding of a data buffer (bitcoinjs pushdata encoding:
direct length byte, `OP_PUSHDATA1`, `OP_PUSHDATA2` or `OP_PUSHDATA4`). -/
def pushEncode (b : List Nat) : List Nat :=
  if b.length < 76 then b.length :: b
  else if b.length ≤ 0xff then OP_PUSHDATA1 :: b.length :: b
  else if b.length ≤ 0xffff then OP_PUSHDATA2 :: b.length % 256 :: b.length / 256 :: b
  else OP_PUSHDATA4 :: b.length % 256 :: b.length / 256 % 256 :: b.length / 65536 % 256 ::
    b.length / 16777216 % 256 :: b

/-- One compiled chunk. -/
def compileElem : ScriptElem → List Nat
  | .num op => [op]
  | .buf b =>
    match asMinimalOp b with
    | some op => [op]
    | none => pushEncode b

/-- `bitcoin.script.compile`. -/
def scriptCompile (chunks : List ScriptElem) : List Nat :=
  (chunks.map compileElem).flatten

/-- The chunk a parsed push decodes to (minimal-op conversion applied). -/
def decodedChunk (data : List Nat) : ScriptElem :=
  match asMinimalOp data with
  | some op => .num op
  | none => .buf data

/-- Fuelled parser behind `scriptDecompile`; each step parses one chunk. -/
def decompileGo : Nat → List Nat → Option (List ScriptElem)
  | _, [] => some []
  | 0, _ :: _ => none
  | fuel + 1, op :: rest =>
    if 1 ≤ op ∧ op ≤ 75 then
      if op ≤ rest.length then
        match decompileGo fuel (rest.drop op) with
        | some chunks => some (decodedChunk (rest.take op) :: chunks)
        | none => none
      else none
    else if op = OP_PUSHDATA1 then
      match rest with
      | [] => none
      | len :: rest' =>
        if len ≤ rest'.length then
          match decompileGo fuel (rest'.drop len) with
          | some chunks => some (decodedChunk (rest'.take len) :: chunks)
          | none => none
        else none
    else if op = OP_PUSHDATA2 then
      match rest with
      | b0 :: b1 :: rest' =>
        if b0 + 256 * b1 ≤ rest'.length then
          match decompileGo fuel (rest'.drop (b0 + 256 * b1)) with
          | some chunks => some (decodedChunk (rest'.take (b0 + 256 * b1)) :: chunks)
          | none => none
        else none
      | _ => none
    else if op = OP_PUSHDATA4 then
      match rest with
      | b0 :: b1 :: b2 :: b3 :: rest' =>
        if b0 + 256 * b1 + 65536 * b2 + 16777216 * b3 ≤ rest'.length then
          match decompileGo fuel (rest'.drop (b0 + 256 * b1 + 65536 * b2 + 16777216 * b3)) with
          | some chunks =>
            some (decodedChunk (rest'.take (b0 + 256 * b1 + 65536 * b2 + 16777216 * b3)) :: chunks)
          | none => none
        else none
      | _ => none
    else
      match decompileGo fuel rest with
      | some chunks => some (.num op :: chunks)
      | none => none

/-- `bitcoin.script.decompile`: `none` models the library's null result. -/
def scriptDecompile (script : List Nat) : Option (List ScriptElem) :=
  decompileGo script.length script

/-- A chunk whose compiled form parses back to itself: a non-push opcode, or
a buffer long enough to escape minimal-push conversion. Every chunk the
source compiles (signatures, secrets, hashes, keys, serialized scripts,
plain opcodes) is of this form. -/
def GoodElem : ScriptElem → Prop
  | .num op => op = 0 ∨ 79 ≤ op
  | .buf b => 2 ≤ b.length ∧ b.length < 4294967296

/-- `writeUInt32LE(timelock)` from `createAtomicSwapScript`: the timelock as
a fixed 4-byte little-endian buffer. -/
def timelockBytesLE (timelock : Nat) : List Nat :=
  [timelock % 256, timelock / 256 % 256, timelock / 65536 % 256, timelock / 16777216 % 256]

/-- `createAtomicSwapScript` (src/bitcoin/atomicSwap.js:35-68): compiles the
two-branch HTLC script. The source performs no validation of the hash or
key lengths — every input is spliced into the script as given. -/
def createAtomicSwapScript (hashedSecret : List Nat) (timelock : Nat)
    (recipientPubKey senderPubKey : List Nat) : List Nat :=
  scriptCompile
    [.num OP_IF,
     .num OP_SHA256, .buf hashedSecret, .num OP_EQUALVERIFY,
     .buf recipientPubKey, .num OP_CHECKSIG,
     .num OP_ELSE,
     .buf (timelockBytesLE timelock), .num OP_CHECKLOCKTIMEVERIFY, .num OP_DROP,
     .buf senderPubKey, .num OP_CHECKSIG,
     .num OP_ENDIF]

/-! ## Transactions (src/bitcoin/atomicSwap.js)

Transactions are modelled structurally: an input carries its outpoint and
final unlocking script, an output an address and a value (JS numbers are
`Int`, so a deficit is representable). `Transaction.fromHex`/`toHex` is the
identity on this structure. -/

/-- One transaction input. -/
structure TxIn where
  hash : List Nat
  index : Nat
  script : List Nat
deriving DecidableEq, Repr

/-- A serialized transaction, as far as the source inspects one. -/
structure Tx where
  ins : List TxIn
  outs : List (String × Int)
deriving DecidableEq, Repr

/-- A funding UTXO as consumed by `createFundingTransaction`. -/
structure Utxo where
  txid : List Nat
  vout : Nat
  scriptPubKey : List Nat
  value : Int
deriving DecidableEq, Repr

/-- The PSBT built by `createFundingTransaction`: its inputs and outputs. -/
structure FundingTx where
  ins : List Utxo
  outs : List (String × Int)
deriving DecidableEq, Repr

/-- `createFundingTransaction` (src/bitcoin/atomicSwap.js:93-131): adds all
given UTXOs as inputs, one output paying `amount` to the P2SH address, and
a change output only when the leftover exceeds the 546-satoshi dust
threshold. There is no check that the inputs cover `amount` plus the fee;
the function cannot fail. -/
def createFundingTransaction (utxos : List Utxo) (p2shAddress : String) (amount : Int)
    (changeAddress : String) (feeRate : Int) : FundingTx :=
  let totalInput := (utxos.map (fun u => u.value)).sum
  let fee := ((utxos.length : Int) * 148 + 2 * 34 + 10) * feeRate
  let change := totalInput - amount - fee
  { ins := utxos,
    outs := [(p2shAddress, amount)] ++ (if change > 546 then [(changeAddress, change)] else []) }

/-- `createWithdrawalTransaction` (src/bitcoin/atomicSwap.js:144-198): the
claim transaction. Its single input's final unlocking script pushes the
signature, then the secret, then `OP_TRUE` (the claim-branch selector),
then the serialized redeem script (the p2sh finalizer). The ECDSA signature
produced by `psbt.signInput` is taken as a parameter. The flat fee is
`250 * 10`. -/
def createWithdrawalTransaction (fundingTxId : List Nat) (fundingVout : Nat)
    (script secret : List Nat) (recipientAddress : String) (amount : Int)
    (signature : List Nat) : Tx :=
  { ins := [{ hash := fundingTxId, index := fundingVout,
              script := scriptCompile [.buf signature, .buf secret, .num OP_TRUE, .buf script] }],
    outs := [(recipientAddress, amount - 2500)] }

/-- Equality of modelled call results is decidable, so concrete runs can be
checked by evaluation. -/
instance {e a : Type} [DecidableEq e] [DecidableEq a] : DecidableEq (Except e a) := fun x y =>
  match x, y with
  | .ok u, .ok v => decidable_of_iff (u = v) (by simp)
  | .error u, .error v => decidable_of_iff (u = v) (by simp)
  | .ok _, .error _ => isFalse (by simp)
  | .error _, .ok _ => isFalse (by simp)

/-- `extractSecretFromTx` (src/bitcoin/atomicSwap.js:274-288): decompile the
first input's script and return element 1 when it is a 32-byte buffer;
otherwise throw. (On a transaction with no input the JS dereference of
`tx.ins[0]` throws a TypeError, modelled as a distinct error.) -/
def extractSecretFromTx (tx : Tx) : Except String (List Nat) :=
  match tx.ins.head? with
  | none => .error "No input"
  | some input =>
    match scriptDecompile input.script with
    | some chunks =>
      match chunks[1]? with
      | some (ScriptElem.buf secret) =>
        if secret.length = 32 then .ok secret else .error "Secret not found in transaction"
      | _ => .error "Secret not found in transaction"
    | none => .error "Secret not found in transaction"

/-- A transaction whose first input script is just two 32-byte pushes: not
the claim-branch layout (no signature, no branch selector, no redeem
script). -/
def txShapeless : Tx :=
  { ins := [{ hash := [], index := 0,
              script := scriptCompile [.buf (List.replicate 32 3), .buf (List.replicate 32 7)] }],
    outs := [] }

/-- A transaction of the exact claim-branch shape: signature, secret,
branch selector, serialized redeem script. -/
def txClaim : Tx :=
  { ins := [{ hash := [], index := 0,
              script := scriptCompile [.buf (List.replicate 71 1), .buf (List.replicate 32 9),
                .num OP_TRUE, .buf (List.replicate 113 2)] }],
    outs := [] }

/-- Modelled from the spec: `isAtomicitySafe` (SwapCoordinator, spec 4.5 and
8) appears nowhere in the source tree; per the spec it returns true only
when the second-locked leg's timelock expires earlier than the first-locked
leg's by at least the configured safety margin. -/
def isAtomicitySafe (safetyMargin timelockFirstLeg timelockSecondLeg : Nat) : Bool :=
  decide (timelockSecondLeg < timelockFirstLeg ∧
    safetyMargin ≤ timelockFirstLeg - timelockSecondLeg)

/-! ## Escrow contract: call characterizations and lifecycle invariant -/

/-- A successful `initiateSwap` is exactly a call passing every guard, and it
creates the record in the same step. -/
theorem initiateSwap_ok_iff (s : State)
    (sender msgValue now swapId participant token amount hashedSecret timelock : Nat) (s' : State) :
    initiateSwap s sender msgValue now swapId participant token amount hashedSecret timelock = .ok s' ↔
      ((s swapId).exists_ = false ∧ participant ≠ 0 ∧ amount ≠ 0 ∧ now < timelock ∧
        hashedSecret ≠ 0 ∧ (token = 0 → msgValue = amount) ∧ (token ≠ 0 → msgValue = 0) ∧
        s' = fun id =>
          if id = swapId then
            { initiator := sender, participant := participant, token := token, amount := amount,
              hashedSecret := hashedSecret, timelock := timelock,
              withdrawn := false, refunded := false, exists_ := true }
          else s id) := by
  unfold initiateSwap
  split_ifs with h1 h2 h3 h4 h5 h6 h7
  · simp [h1]
  · simp [h2]
  · simp [h3]
  · constructor
    · intro h; exact h.elim
    · intro h; omega
  · simp [h5]
  · constructor
    · intro h; exact h.elim
    · rintro ⟨-, -, -, -, -, hv, -, -⟩; exact h6.2 (hv h6.1)
  · constructor
    · intro h; exact h.elim
    · rintro ⟨-, -, -, -, -, -, hv, -⟩; exact h7.2 (hv h7.1)
  · simp only [Except.ok.injEq]
    constructor
    · intro hok
      refine ⟨by simpa using h1, h2, h3, by omega, h5, ?_, ?_, hok.symm⟩
      · intro ht; by_contra hv; exact h6 ⟨ht, hv⟩
      · intro ht; by_contra hv; exact h7 ⟨ht, hv⟩
    · rintro ⟨-, -, -, -, -, -, -, rfl⟩; rfl

/-- A successful `withdraw` is exactly a call passing every guard, including
the participant check, and it only sets `withdrawn`. -/
theorem withdraw_ok_iff (s : State) (sender now swapId secret : Nat) (s' : State) :
    withdraw s sender now swapId secret = .ok s' ↔
      ((s swapId).exists_ = true ∧ (s swapId).withdrawn = false ∧ (s swapId).refunded = false ∧
        sha256Word secret = (s swapId).hashedSecret ∧ now < (s swapId).timelock ∧
        sender = (s swapId).participant ∧
        s' = fun id => if id = swapId then { s swapId with withdrawn := true } else s id) := by
  constructor
  · intro h
    unfold withdraw at h
    dsimp only at h
    split_ifs at h with h1 h2 h3 h4 h5 h6
    injection h with h
    exact ⟨by simpa using h1, by simpa using h2, by simpa using h3, by simpa using h4,
      by omega, by simpa using h6, h.symm⟩
  · rintro ⟨hex, hw, hr, hsec, ht, hsend, rfl⟩
    unfold withdraw
    dsimp only
    have hle : ¬((s swapId).timelock ≤ now) := by omega
    simp [hex, hw, hr, hsec, hle, hsend]

/-- A successful `refund` is exactly a call passing every guard, including
the initiator check, and it only sets `refunded`. -/
theorem refund_ok_iff (s : State) (sender now swapId : Nat) (s' : State) :
    refund s sender now swapId = .ok s' ↔
      ((s swapId).exists_ = true ∧ (s swapId).withdrawn = false ∧ (s swapId).refunded = false ∧
        (s swapId).timelock ≤ now ∧ sender = (s swapId).initiator ∧
        s' = fun id => if id = swapId then { s swapId with refunded := true } else s id) := by
  constructor
  · intro h
    unfold refund at h
    dsimp only at h
    split_ifs at h with h1 h2 h3 h4 h5
    injection h with h
    exact ⟨by simpa using h1, by simpa using h2, by simpa using h3, by omega,
      by simpa using h5, h.symm⟩
  · rintro ⟨hex, hw, hr, ht, hsend, rfl⟩
    unfold refund
    dsimp only
    have hlt : ¬(now < (s swapId).timelock) := by omega
    simp [hex, hw, hr, hlt, hsend]

theorem stateInv_initial : StateInv initialState := by
  intro id
  constructor
  · simp [initialState, emptySwap]
  · simp [initialState, emptySwap]

/-- One successful call preserves the invariant and leaves every settled
record untouched. -/
theorem step_preserves (s s' : State) (hinv : StateInv s) (hst : StepRel s s') :
    StateInv s' ∧
      ∀ id, ((s id).withdrawn = true ∨ (s id).refunded = true) → s' id = s id := by
  rcases hst with ⟨sender, msgValue, now, swapId, participant, token, amount, hashedSecret, timelock, h⟩
    | ⟨sender, now, swapId, secret, h⟩ | ⟨sender, now, swapId, h⟩
  · rw [initiateSwap_ok_iff] at h
    obtain ⟨hex, -, -, -, -, -, -, rfl⟩ := h
    constructor
    · intro id
      by_cases hid : id = swapId
      · subst hid; constructor <;> simp
      · simpa [hid] using hinv id
    · intro id hset
      by_cases hid : id = swapId
      · subst hid
        exact absurd ((hinv id).2 hset) (by simp [hex])
      · simp [hid]
  · rw [withdraw_ok_iff] at h
    obtain ⟨hex, hw, hr, -, -, -, rfl⟩ := h
    constructor
    · intro id
      by_cases hid : id = swapId
      · subst hid; constructor <;> simp [hr, hex]
      · simpa [hid] using hinv id
    · intro id hset
      by_cases hid : id = swapId
      · subst hid; simp [hw, hr] at hset
      · simp [hid]
  · rw [refund_ok_iff] at h
    obtain ⟨hex, hw, hr, -, -, rfl⟩ := h
    constructor
    · intro id
      by_cases hid : id = swapId
      · subst hid; constructor <;> simp [hw, hex]
      · simpa [hid] using hinv id
    · intro id hset
      by_cases hid : id = swapId
      · subst hid; simp [hw, hr] at hset
      · simp [hid]

/-- Any sequence of successful calls preserves the invariant and leaves
settled records untouched. -/
theorem reach_preserves (s s' : State) (hinv : StateInv s)
    (h : Relation.ReflTransGen StepRel s s') :
    StateInv s' ∧
      ∀ id, ((s id).withdrawn = true ∨ (s id).refunded = true) → s' id = s id := by
  induction h with
  | refl => exact ⟨hinv, fun id _ => rfl⟩
  | tail hsteps hstep ih =>
    obtain ⟨ihinv, ihfrozen⟩ := ih
    obtain ⟨hinv', hfront⟩ := step_preserves _ _ ihinv hstep
    refine ⟨hinv', fun id hset => ?_⟩
    have hmid := ihfrozen id hset
    rw [hfront id (by rw [hmid]; exact hset), hmid]

/-- `isWithdrawable` unfolded to its guard propositions. -/
theorem isWithdrawable_iff (s : State) (now swapId secret : Nat) :
    isWithdrawable s now swapId secret = true ↔
      ((s swapId).exists_ = true ∧ (s swapId).withdrawn = false ∧ (s swapId).refunded = false ∧
        sha256Word secret = (s swapId).hashedSecret ∧ now < (s swapId).timelock) := by
  simp [isWithdrawable, and_assoc]

/-- `isRefundable` unfolded to its guard propositions. -/
theorem isRefundable_iff (s : State) (now swapId : Nat) :
    isRefundable s now swapId = true ↔
      ((s swapId).exists_ = true ∧ (s swapId).withdrawn = false ∧ (s swapId).refunded = false ∧
        (s swapId).timelock ≤ now) := by
  simp [isRefundable, and_assoc]

/-- The state `s1` arises from one successful `initiateSwap` call. -/
theorem reachable_s1 : Reachable s1 :=
  Relation.ReflTransGen.single
    (Or.inl ⟨5, 100, 10, 1, 7, 0, 100, 5, 1000,
      (initiateSwap_ok_iff initialState 5 100 10 1 7 0 100 5 1000 s1).mpr
        ⟨rfl, by decide, by decide, by decide, by decide, fun _ => rfl,
          fun h => absurd rfl h, rfl⟩⟩)

/-- C1: in every state reachable by any sequence of initiate, withdraw and
refund calls, no record has both terminal flags set; and once a reachable
state has a record's withdrawn (resp. refunded) flag set, every later state
reachable by further calls keeps that flag set and the other flag clear —
the lifecycle is Open, then exactly one of Withdrawn or Refunded, terminal
and irreversible. -/
theorem lifecycle_terminal (s s' : State) (hreach : Reachable s)
    (hlater : Relation.ReflTransGen StepRel s s') (id : Nat) :
    ¬((s' id).withdrawn = true ∧ (s' id).refunded = true) ∧
      ((s id).withdrawn = true → (s' id).withdrawn = true ∧ (s' id).refunded = false) ∧
      ((s id).refunded = true → (s' id).refunded = true ∧ (s' id).withdrawn = false) := by
  obtain ⟨hinv, -⟩ := reach_preserves initialState s stateInv_initial hreach
  obtain ⟨hinv', hfrozen⟩ := reach_preserves s s' hinv hlater
  refine ⟨(hinv' id).1, fun hw => ?_, fun hr => ?_⟩
  · have hfr := hfrozen id (Or.inl hw)
    have hr0 : (s id).refunded = false := by
      cases hrf : (s id).refunded
      · rfl
      · exact absurd ⟨hw, hrf⟩ (hinv id).1
    rw [hfr]
    exact ⟨hw, hr0⟩
  · have hfr := hfrozen id (Or.inr hr)
    have hw0 : (s id).withdrawn = false := by
      cases hwd : (s id).withdrawn
      · rfl
      · exact absurd ⟨hwd, hr⟩ (hinv id).1
    rw [hfr]
    exact ⟨hr, hw0⟩

/-- Witness for C1 at the concrete reachable state `s1` and id 1. -/
theorem lifecycle_terminal_witness :
    ¬((s1 1).withdrawn = true ∧ (s1 1).refunded = true) ∧
      ((s1 1).withdrawn = true → (s1 1).withdrawn = true ∧ (s1 1).refunded = false) ∧
      ((s1 1).refunded = true → (s1 1).refunded = true ∧ (s1 1).withdrawn = false) :=
  lifecycle_terminal s1 s1 reachable_s1 Relation.ReflTransGen.refl 1

/-- C2 counterexample: in the state `s2` holding an open swap whose
participant is address 7 and initiator address 5, `isWithdrawable` (at time
500, with the correct secret 42) and `isRefundable` (at time 2000) are both
true, yet the corresponding `withdraw` and `refund` calls by address 6
revert — the view predicates ignore the caller, so they do not agree with
the calls for every caller. -/
theorem predicates_ignore_caller :
    isWithdrawable s2 500 1 42 = true ∧
      withdraw s2 6 500 1 42 = .error "Only participant can withdraw" ∧
      isRefundable s2 2000 1 = true ∧
      refund s2 6 2000 1 = .error "Only initiator can refund" := by
  refine ⟨?_, ?_, ?_, ?_⟩
  · simp [isWithdrawable, s2, initialState, emptySwap]
  · simp [withdraw, s2, initialState, emptySwap]
  · simp [isRefundable, s2, initialState, emptySwap]
  · simp [refund, s2, initialState, emptySwap]

/-- C2 amended: the view predicates compute exactly the guards of
`withdraw`/`refund` other than the caller-authorization check, which the
predicates cannot see; a `withdraw` (resp. `refund`) call succeeds exactly
when the predicate is true and the caller is the record's participant
(resp. initiator). The predicates are pure functions of the state and
mutate nothing. -/
theorem predicates_match_guards_modulo_caller (s : State) (sender now swapId secret : Nat) :
    ((∃ s', withdraw s sender now swapId secret = .ok s') ↔
      (isWithdrawable s now swapId secret = true ∧ sender = (s swapId).participant)) ∧
    ((∃ s', refund s sender now swapId = .ok s') ↔
      (isRefundable s now swapId = true ∧ sender = (s swapId).initiator)) := by
  constructor
  · constructor
    · rintro ⟨s', h⟩
      rw [withdraw_ok_iff] at h
      obtain ⟨hex, hw, hr, hsec, ht, hsend, -⟩ := h
      exact ⟨(isWithdrawable_iff s now swapId secret).mpr ⟨hex, hw, hr, hsec, ht⟩, hsend⟩
    · rintro ⟨hp, hsend⟩
      obtain ⟨hex, hw, hr, hsec, ht⟩ := (isWithdrawable_iff s now swapId secret).mp hp
      exact ⟨_, (withdraw_ok_iff s sender now swapId secret _).mpr
        ⟨hex, hw, hr, hsec, ht, hsend, rfl⟩⟩
  · constructor
    · rintro ⟨s', h⟩
      rw [refund_ok_iff] at h
      obtain ⟨hex, hw, hr, ht, hsend, -⟩ := h
      exact ⟨(isRefundable_iff s now swapId).mpr ⟨hex, hw, hr, ht⟩, hsend⟩
    · rintro ⟨hp, hsend⟩
      obtain ⟨hex, hw, hr, ht⟩ := (isRefundable_iff s now swapId).mp hp
      exact ⟨_, (refund_ok_iff s sender now swapId _).mpr ⟨hex, hw, hr, ht, hsend, rfl⟩⟩

/-- Witness for the amended C2: in `s2`, the participant's own withdraw call
with the correct secret succeeds. -/
theorem predicates_match_guards_witness :
    ∃ s', withdraw s2 7 500 1 42 = .ok s' :=
  (predicates_match_guards_modulo_caller s2 7 500 1 42).1.mpr
    ⟨by simp [isWithdrawable, s2, initialState, emptySwap], by simp [s2]⟩

/-- C3: `initiateSwap` rejects, with the corresponding require message and
in source order, a used id, a zero participant, a zero amount, a timelock
not strictly in the future, and an all-zero hash; and a successful call
creates the fully populated record for its id, touches no other id, and
escrows the amount (for an ETH swap the attached value equals the amount)
in the same atomic step — a revert returns no state at all. -/
theorem initiate_guards (s : State)
    (sender msgValue now swapId participant token amount hashedSecret timelock : Nat) :
    ((s swapId).exists_ = true →
      initiateSwap s sender msgValue now swapId participant token amount hashedSecret timelock =
        .error "Swap already exists") ∧
    ((s swapId).exists_ = false → participant = 0 →
      initiateSwap s sender msgValue now swapId participant token amount hashedSecret timelock =
        .error "Invalid participant") ∧
    ((s swapId).exists_ = false → participant ≠ 0 → amount = 0 →
      initiateSwap s sender msgValue now swapId participant token amount hashedSecret timelock =
        .error "Amount must be greater than 0") ∧
    ((s swapId).exists_ = false → participant ≠ 0 → amount ≠ 0 → timelock ≤ now →
      initiateSwap s sender msgValue now swapId participant token amount hashedSecret timelock =
        .error "Timelock must be in the future") ∧
    ((s swapId).exists_ = false → participant ≠ 0 → amount ≠ 0 → now < timelock →
      hashedSecret = 0 →
      initiateSwap s sender msgValue now swapId participant token amount hashedSecret timelock =
        .error "Invalid hashed secret") ∧
    (∀ s',
      initiateSwap s sender msgValue now swapId participant token amount hashedSecret timelock =
        .ok s' →
      s' swapId =
          { initiator := sender, participant := participant, token := token, amount := amount,
            hashedSecret := hashedSecret, timelock := timelock,
            withdrawn := false, refunded := false, exists_ := true } ∧
        (∀ j, j ≠ swapId → s' j = s j) ∧ (token = 0 → msgValue = amount)) := by
  refine ⟨fun hex => ?_, fun hex hp => ?_, fun hex hp ha => ?_, fun hex hp ha ht => ?_,
    fun hex hp ha ht hh => ?_, fun s' h => ?_⟩
  · simp [initiateSwap, hex]
  · simp [initiateSwap, hex, hp]
  · simp [initiateSwap, hex, hp, ha]
  · have : ¬(now < timelock) := by omega
    simp [initiateSwap, hex, hp, ha, ht, this]
  · have : ¬(timelock ≤ now) := by omega
    simp [initiateSwap, hex, hp, ha, this, hh]
  · rw [initiateSwap_ok_iff] at h
    obtain ⟨-, -, -, -, -, hval, -, rfl⟩ := h
    exact ⟨by simp, fun j hj => by simp [hj], hval⟩

/-- Witness for C3: initiating id 1 again in `s1` fails with the duplicate
error, and the call that produced `s1` created exactly its record. -/
theorem initiate_guards_witness :
    initiateSwap s1 9 0 50 1 7 0 5 3 1000 = .error "Swap already exists" :=
  (initiate_guards s1 9 0 50 1 7 0 5 3 1000).1 rfl

/-- C10: for an id with no record, both view predicates are false without
any error, while `getSwap` fails with the swap-does-not-exist error rather
than returning a default record. -/
theorem missing_swap_reads (s : State) (now swapId : Nat)
    (h : (s swapId).exists_ = false) :
    (∀ secret, isWithdrawable s now swapId secret = false) ∧
      isRefundable s now swapId = false ∧
      getSwap s swapId = .error "Swap does not exist" := by
  refine ⟨fun secret => ?_, ?_, ?_⟩
  · simp [isWithdrawable, h]
  · simp [isRefundable, h]
  · simp [getSwap, h]

/-- Witness for C10 at the fresh contract storage and id 0. -/
theorem missing_swap_reads_witness :
    (∀ secret, isWithdrawable initialState 5 0 secret = false) ∧
      isRefundable initialState 5 0 = false ∧
      getSwap initialState 0 = .error "Swap does not exist" :=
  missing_swap_reads initialState 5 0 rfl

/-! ## Script layer: compile/decompile round trip -/

/-- A buffer of at least two bytes has no minimal-opcode form. -/
theorem asMinimalOp_eq_none (b : List Nat) (h : 2 ≤ b.length) : asMinimalOp b = none := by
  rcases b with _ | ⟨x, _ | ⟨y, t⟩⟩
  · simp at h
  · simp at h
  · rfl

/-- Compiling a chunk list is compiling the head then the tail. -/
theorem scriptCompile_cons (e : ScriptElem) (es : List ScriptElem) :
    scriptCompile (e :: es) = compileElem e ++ scriptCompile es := by
  simp [scriptCompile]

/-- Every compiled chunk occupies at least one byte. -/
theorem compileElem_length_pos (e : ScriptElem) : 1 ≤ (compileElem e).length := by
  cases e with
  | num op => simp [compileElem]
  | buf b =>
    rcases b with _ | ⟨x, _ | ⟨y, t⟩⟩
    · simp [compileElem, asMinimalOp]
    · simp only [compileElem, asMinimalOp]
      split_ifs <;> simp [pushEncode]
    · simp only [compileElem, asMinimalOp_eq_none (x :: y :: t) (by simp)]
      unfold pushEncode
      split_ifs <;> simp

/-- A compiled script is at least as long as its chunk list. -/
theorem chunks_le_compile_length (chunks : List ScriptElem) :
    chunks.length ≤ (scriptCompile chunks).length := by
  induction chunks with
  | nil => simp [scriptCompile]
  | cons e es ih =>
    rw [scriptCompile_cons]
    have := compileElem_length_pos e
    simp only [List.length_cons, List.length_append]
    omega

/-- The parser consumes no fuel on the empty script. -/
theorem decompileGo_nil (fuel : Nat) : decompileGo fuel [] = some [] := by
  cases fuel <;> rfl

/-- One parsing step over an encoded push of a buffer of length 2 to
2^32 - 1, for any continuation. -/
theorem decompileGo_push (fuel : Nat) (b rest : List Nat) (h2 : 2 ≤ b.length)
    (h4 : b.length < 4294967296) :
    decompileGo (fuel + 1) (pushEncode b ++ rest) =
      (decompileGo fuel rest).map (ScriptElem.buf b :: ·) := by
  have hdc : decodedChunk b = ScriptElem.buf b := by
    simp [decodedChunk, asMinimalOp_eq_none b h2]
  unfold pushEncode
  split_ifs with hA hB hC
  · show decompileGo (fuel + 1) (b.length :: (b ++ rest)) = _
    simp only [decompileGo]
    rw [if_pos (show 1 ≤ b.length ∧ b.length ≤ 75 from ⟨by omega, by omega⟩),
      if_pos (show b.length ≤ (b ++ rest).length by simp),
      List.drop_left, List.take_left, hdc]
    cases decompileGo fuel rest <;> simp
  · show decompileGo (fuel + 1) (OP_PUSHDATA1 :: b.length :: (b ++ rest)) = _
    simp only [decompileGo]
    rw [if_neg (show ¬(1 ≤ OP_PUSHDATA1 ∧ OP_PUSHDATA1 ≤ 75) by simp [OP_PUSHDATA1]),
      if_pos trivial,
      if_pos (show b.length ≤ (b ++ rest).length by simp),
      List.drop_left, List.take_left, hdc]
    cases decompileGo fuel rest <;> simp
  · show decompileGo (fuel + 1)
        (OP_PUSHDATA2 :: b.length % 256 :: b.length / 256 :: (b ++ rest)) = _
    simp only [decompileGo]
    rw [if_neg (show ¬(1 ≤ OP_PUSHDATA2 ∧ OP_PUSHDATA2 ≤ 75) by simp [OP_PUSHDATA2]),
      if_neg (show ¬(OP_PUSHDATA2 = OP_PUSHDATA1) by simp [OP_PUSHDATA1, OP_PUSHDATA2]),
      if_pos trivial,
      show b.length % 256 + 256 * (b.length / 256) = b.length from by omega,
      if_pos (show b.length ≤ (b ++ rest).length by simp),
      List.drop_left, List.take_left, hdc]
    cases decompileGo fuel rest <;> simp
  · show decompileGo (fuel + 1)
        (OP_PUSHDATA4 :: b.length % 256 :: b.length / 256 % 256 :: b.length / 65536 % 256 ::
          b.length / 16777216 % 256 :: (b ++ rest)) = _
    simp only [decompileGo]
    rw [if_neg (show ¬(1 ≤ OP_PUSHDATA4 ∧ OP_PUSHDATA4 ≤ 75) by simp [OP_PUSHDATA4]),
      if_neg (show ¬(OP_PUSHDATA4 = OP_PUSHDATA1) by simp [OP_PUSHDATA1, OP_PUSHDATA4]),
      if_neg (show ¬(OP_PUSHDATA4 = OP_PUSHDATA2) by simp [OP_PUSHDATA2, OP_PUSHDATA4]),
      if_pos trivial,
      show b.length % 256 + 256 * (b.length / 256 % 256) + 65536 * (b.length / 65536 % 256) +
        16777216 * (b.length / 16777216 % 256) = b.length from by omega,
      if_pos (show b.length ≤ (b ++ rest).length by simp),
      List.drop_left, List.take_left, hdc]
    cases decompileGo fuel rest <;> simp

/-- One parsing step over a plain (non-push) opcode. -/
theorem decompileGo_op (fuel op : Nat) (rest : List Nat) (h : op = 0 ∨ 79 ≤ op) :
    decompileGo (fuel + 1) (op :: rest) =
      (decompileGo fuel rest).map (ScriptElem.num op :: ·) := by
  simp only [decompileGo]
  rw [if_neg (by omega), if_neg (by simp [OP_PUSHDATA1]; omega),
    if_neg (by simp [OP_PUSHDATA2]; omega), if_neg (by simp [OP_PUSHDATA4]; omega)]
  cases decompileGo fuel rest <;> simp

/-- With fuel at least the chunk count, parsing a compiled script of good
chunks recovers them exactly. -/
theorem decompileGo_compile (chunks : List ScriptElem) (hall : ∀ e ∈ chunks, GoodElem e) :
    ∀ fuel, chunks.length ≤ fuel → decompileGo fuel (scriptCompile chunks) = some chunks := by
  induction chunks with
  | nil =>
    intro fuel _
    simp only [scriptCompile, List.map_nil, List.flatten_nil]
    exact decompileGo_nil fuel
  | cons e es ih =>
    intro fuel hf
    obtain ⟨f, rfl⟩ : ∃ f, fuel = f + 1 := ⟨fuel - 1, by simp at hf; omega⟩
    have hrest : ∀ x ∈ es, GoodElem x := fun x hx => hall x (by simp [hx])
    have hes : es.length ≤ f := by simp at hf; omega
    rw [scriptCompile_cons]
    cases e with
    | num op =>
      rw [show compileElem (ScriptElem.num op) = [op] from rfl, List.cons_append,
        List.nil_append, decompileGo_op f op _ (show op = 0 ∨ 79 ≤ op from hall (ScriptElem.num op) (by simp)), ih hrest f hes]
      rfl
    | buf b =>
      obtain ⟨hb2, hb4⟩ := hall (ScriptElem.buf b) (by simp)
      rw [show compileElem (ScriptElem.buf b) = pushEncode b by
          simp [compileElem, asMinimalOp_eq_none b hb2],
        decompileGo_push f b _ hb2 hb4, ih hrest f hes]
      rfl

/-- `decompile` inverts `compile` on scripts of good chunks — in particular
on every script the source builds. -/
theorem scriptDecompile_compile (chunks : List ScriptElem) (hall : ∀ e ∈ chunks, GoodElem e) :
    scriptDecompile (scriptCompile chunks) = some chunks :=
  decompileGo_compile chunks hall _ (chunks_le_compile_length chunks)

/-! ## Claim theorems: script and transaction layer -/

/-- C5: extracting the secret from the claim transaction built by
`createWithdrawalTransaction` with a 32-byte secret returns exactly that
secret, for every funding outpoint, redeem script, destination, amount and
signature (of DER-plausible length). -/
theorem claim_secret_roundtrip (fundingTxId : List Nat) (fundingVout : Nat)
    (script secret signature : List Nat) (recipientAddress : String) (amount : Int)
    (hsec : secret.length = 32)
    (hsig : 2 ≤ signature.length ∧ signature.length < 4294967296)
    (hscr : 2 ≤ script.length ∧ script.length < 4294967296) :
    extractSecretFromTx
        (createWithdrawalTransaction fundingTxId fundingVout script secret recipientAddress
          amount signature) =
      .ok secret := by
  have hdec : scriptDecompile
      (scriptCompile [.buf signature, .buf secret, .num OP_TRUE, .buf script]) =
        some [.buf signature, .buf secret, .num OP_TRUE, .buf script] := by
    apply scriptDecompile_compile
    intro e he
    simp only [List.mem_cons, List.not_mem_nil, or_false] at he
    rcases he with rfl | rfl | rfl | rfl
    · exact ⟨hsig.1, hsig.2⟩
    · exact ⟨by omega, by omega⟩
    · exact Or.inr (by simp [OP_TRUE])
    · exact ⟨hscr.1, hscr.2⟩
  simp [extractSecretFromTx, createWithdrawalTransaction, hdec, hsec]

/-- Witness for C5 on fully concrete data, the redeem script being a real
compiled HTLC script. -/
theorem claim_secret_roundtrip_witness :
    extractSecretFromTx
        (createWithdrawalTransaction [] 0
          (createAtomicSwapScript (List.replicate 32 2) 600000000 (List.replicate 33 3)
            (List.replicate 33 4))
          (List.replicate 32 9) "destination" 100000 (List.replicate 71 1)) =
      .ok (List.replicate 32 9) :=
  claim_secret_roundtrip [] 0 _ _ _ "destination" 100000 (by decide) ⟨by decide, by decide⟩
    ⟨by decide, by decide⟩

/-- C6 counterexample: a call whose single input (100 satoshis) cannot cover
the amount (10000) plus the estimated fee (2260 at the default rate 10)
does not fail at all — `createFundingTransaction` has no insufficiency
check — and still emits the escrow output, producing an underfunded
transaction. -/
theorem funding_underfunded_builds :
    createFundingTransaction [{ txid := [], vout := 0, scriptPubKey := [], value := 100 }]
        "escrow" 10000 "change" 10 =
      { ins := [{ txid := [], vout := 0, scriptPubKey := [], value := 100 }],
        outs := [("escrow", 10000)] } ∧
    (100 : Int) < 10000 + ((1 : Int) * 148 + 2 * 34 + 10) * 10 := by
  constructor
  · decide
  · decide

/-- C6 amended: the funding builder never fails (it performs no
insufficient-funds check); it always emits the escrow output first, keeps
every given input, and emits a change output exactly when inputs minus
amount minus the estimated fee exceed the 546-satoshi dust threshold. -/
theorem funding_builder_outputs (utxos : List Utxo) (p2shAddress changeAddress : String)
    (amount feeRate : Int) :
    ((createFundingTransaction utxos p2shAddress amount changeAddress feeRate).outs.head? =
      some (p2shAddress, amount)) ∧
    ((createFundingTransaction utxos p2shAddress amount changeAddress feeRate).ins = utxos) ∧
    ((utxos.map (fun u => u.value)).sum - amount -
          ((utxos.length : Int) * 148 + 2 * 34 + 10) * feeRate > 546 →
      (createFundingTransaction utxos p2shAddress amount changeAddress feeRate).outs =
        [(p2shAddress, amount),
         (changeAddress, (utxos.map (fun u => u.value)).sum - amount -
           ((utxos.length : Int) * 148 + 2 * 34 + 10) * feeRate)]) ∧
    ((utxos.map (fun u => u.value)).sum - amount -
          ((utxos.length : Int) * 148 + 2 * 34 + 10) * feeRate ≤ 546 →
      (createFundingTransaction utxos p2shAddress amount changeAddress feeRate).outs =
        [(p2shAddress, amount)]) := by
  unfold createFundingTransaction
  dsimp only
  refine ⟨?_, rfl, fun hgt => ?_, fun hle => ?_⟩
  · split_ifs <;> rfl
  · rw [if_pos hgt]; rfl
  · rw [if_neg (by omega)]; rfl

/-- Witness for the amended C6: one 1000000-satoshi input funding a
1000-satoshi escrow at fee rate 1 leaves change 998774 above dust, so both
outputs are emitted. -/
theorem funding_builder_outputs_witness :
    (createFundingTransaction [{ txid := [], vout := 0, scriptPubKey := [], value := 1000000 }]
        "escrow" 1000 "change" 1).outs =
      [("escrow", 1000), ("change", 998774)] := by
  have h := (funding_builder_outputs
    [{ txid := [], vout := 0, scriptPubKey := [], value := 1000000 }]
    "escrow" "change" 1000 1).2.2.1 (by decide)
  simpa using h

/-- C7 (the coordinator predicate is absent from the source and is modelled
from the spec): `isAtomicitySafe` is false exactly when the second leg's
timelock does not expire before the first leg's, or the margin between them
is below the configured safety threshold, and true otherwise. -/
theorem atomicity_safe_iff (safetyMargin tA tB : Nat) :
    (isAtomicitySafe safetyMargin tA tB = false ↔ tA ≤ tB ∨ tA - tB < safetyMargin) ∧
    (isAtomicitySafe safetyMargin tA tB = true ↔ tB < tA ∧ safetyMargin ≤ tA - tB) := by
  constructor
  · simp only [isAtomicitySafe, decide_eq_false_iff_not]
    omega
  · simp [isAtomicitySafe]

/-- C8 counterexample: a first-input script of just two 32-byte pushes —
no signature, no claim-branch selector, no serialized redeem script —
still extracts "a secret" (the second push) instead of failing, because
the source checks only that the decompiled script has at least two chunks
and chunk 1 is a 32-byte buffer. -/
theorem extract_ignores_script_shape :
    extractSecretFromTx txShapeless = .ok (List.replicate 32 7) := by decide

/-- C8 amended: extraction looks only at chunk 1 of the decompiled first
input script: it returns that chunk exactly when it is a pushed 32-byte
buffer (whatever the rest of the script looks like), and fails with the
secret-not-found error exactly when there is no such chunk. -/
theorem extract_characterization (tx : Tx) (input : TxIn)
    (hin : tx.ins.head? = some input) (b : List Nat) :
    (extractSecretFromTx tx = .ok b ↔
      ∃ chunks, scriptDecompile input.script = some chunks ∧
        chunks[1]? = some (.buf b) ∧ b.length = 32) ∧
    (extractSecretFromTx tx = .error "Secret not found in transaction" ↔
      ¬∃ b' chunks, scriptDecompile input.script = some chunks ∧
        chunks[1]? = some (.buf b') ∧ b'.length = 32) := by
  unfold extractSecretFromTx
  rw [hin]
  cases hdec : scriptDecompile input.script with
  | none => simp [hdec]
  | some chunks =>
    cases hget : chunks[1]? with
    | none => simp [hdec, hget]
    | some e =>
      cases e with
      | num op => simp [hdec, hget]
      | buf data =>
        simp only [hdec, hget]
        by_cases hlen : data.length = 32
        · rw [if_pos hlen]
          constructor
          · constructor
            · intro hok
              obtain rfl : data = b := by simpa using hok
              exact ⟨chunks, rfl, hget, hlen⟩
            · rintro ⟨chunks', hc, hb, -⟩
              obtain rfl : chunks' = chunks := by simpa using hc.symm
              obtain rfl : data = b := by simpa using hget.symm.trans hb
              rfl
          · refine iff_of_false (by simp) fun hno => ?_
            exact hno ⟨data, chunks, rfl, hget, hlen⟩
        · rw [if_neg hlen]
          constructor
          · refine iff_of_false (by simp) ?_
            rintro ⟨chunks', hc, hb, hl⟩
            obtain rfl : chunks' = chunks := by simpa using hc.symm
            obtain rfl : data = b := by simpa using hget.symm.trans hb
            exact hlen hl
          · refine iff_of_true rfl ?_
            rintro ⟨b', chunks', hc, hb, hl⟩
            obtain rfl : chunks' = chunks := by simpa using hc.symm
            obtain rfl : data = b' := by simpa using hget.symm.trans hb
            exact hlen hl

/-- Witness for the amended C8: a transaction of the exact claim shape
yields its 32-byte secret. -/
theorem extract_characterization_witness :
    extractSecretFromTx txClaim = .ok (List.replicate 32 9) :=
  (extract_characterization txClaim
      { hash := [], index := 0,
        script := scriptCompile [.buf (List.replicate 71 1), .buf (List.replicate 32 9),
          .num OP_TRUE, .buf (List.replicate 113 2)] }
      rfl (List.replicate 32 9)).1.mpr
    ⟨[.buf (List.replicate 71 1), .buf (List.replicate 32 9), .num OP_TRUE,
        .buf (List.replicate 113 2)],
      by decide, by decide, by decide⟩

/-- C9 counterexample: the redeem-script builder performs no validation at
all — a 1-byte hashedSecret and even 5- and 2-byte "public keys" are
spliced verbatim into a successfully compiled script, with no InvalidHash
or InvalidKey failure. -/
theorem script_builder_accepts_bad_inputs :
    scriptDecompile (createAtomicSwapScript [0xab] 600000000 (List.replicate 33 2)
        (List.replicate 33 3)) =
      some [.num OP_IF, .num OP_SHA256, .buf [0xab], .num OP_EQUALVERIFY,
        .buf (List.replicate 33 2), .num OP_CHECKSIG, .num OP_ELSE,
        .buf (timelockBytesLE 600000000), .num OP_CHECKLOCKTIMEVERIFY, .num OP_DROP,
        .buf (List.replicate 33 3), .num OP_CHECKSIG, .num OP_ENDIF] ∧
    scriptDecompile (createAtomicSwapScript (List.replicate 32 1) 600000000 [1, 2, 3, 4, 5]
        [9, 9]) =
      some [.num OP_IF, .num OP_SHA256, .buf (List.replicate 32 1), .num OP_EQUALVERIFY,
        .buf [1, 2, 3, 4, 5], .num OP_CHECKSIG, .num OP_ELSE,
        .buf (timelockBytesLE 600000000), .num OP_CHECKLOCKTIMEVERIFY, .num OP_DROP,
        .buf [9, 9], .num OP_CHECKSIG, .num OP_ENDIF] := by
  constructor
  · decide
  · decide

/-- C9 amended: the builder validates nothing; for every input (well-formed
or not) it returns the compiled two-branch HTLC script, and for inputs of
the lengths the spec calls well-formed (32-byte hash, 33- or 65-byte keys)
that script decompiles to exactly the claim/refund layout with the hash and
both keys verbatim. -/
theorem script_builder_layout (h pkr pks : List Nat) (t : Nat)
    (hh : h.length = 32) (hr : pkr.length = 33 ∨ pkr.length = 65)
    (hs : pks.length = 33 ∨ pks.length = 65) :
    scriptDecompile (createAtomicSwapScript h t pkr pks) =
      some [.num OP_IF, .num OP_SHA256, .buf h, .num OP_EQUALVERIFY, .buf pkr,
        .num OP_CHECKSIG, .num OP_ELSE, .buf (timelockBytesLE t),
        .num OP_CHECKLOCKTIMEVERIFY, .num OP_DROP, .buf pks, .num OP_CHECKSIG,
        .num OP_ENDIF] := by
  apply scriptDecompile_compile
  intro e he
  simp only [List.mem_cons, List.not_mem_nil, or_false] at he
  rcases he with rfl | rfl | rfl | rfl | rfl | rfl | rfl | rfl | rfl | rfl | rfl | rfl | rfl
  · exact Or.inr (by simp [OP_IF])
  · exact Or.inr (by simp [OP_SHA256])
  · exact ⟨by omega, by omega⟩
  · exact Or.inr (by simp [OP_EQUALVERIFY])
  · exact ⟨by omega, by omega⟩
  · exact Or.inr (by simp [OP_CHECKSIG])
  · exact Or.inr (by simp [OP_ELSE])
  · exact ⟨by simp [timelockBytesLE], by simp [timelockBytesLE]⟩
  · exact Or.inr (by simp [OP_CHECKLOCKTIMEVERIFY])
  · exact Or.inr (by simp [OP_DROP])
  · exact ⟨by omega, by omega⟩
  · exact Or.inr (by simp [OP_CHECKSIG])
  · exact Or.inr (by simp [OP_ENDIF])

/-- Witness for the amended C9 with a 33-byte and a 65-byte key. -/
theorem script_builder_layout_witness :
    scriptDecompile (createAtomicSwapScript (List.replicate 32 1) 650000000
        (List.replicate 33 2) (List.replicate 65 3)) =
      some [.num OP_IF, .num OP_SHA256, .buf (List.replicate 32 1), .num OP_EQUALVERIFY,
        .buf (List.replicate 33 2), .num OP_CHECKSIG, .num OP_ELSE,
        .buf (timelockBytesLE 650000000), .num OP_CHECKLOCKTIMEVERIFY, .num OP_DROP,
        .buf (List.replicate 65 3), .num OP_CHECKSIG, .num OP_ENDIF] :=
  script_builder_layout (List.replicate 32 1) (List.replicate 33 2) (List.replicate 65 3)
    650000000 (by decide) (Or.inl (by decide)) (Or.inr (by decide))

/-! ## SHA-256 digests: shape, value bounds, and the collision argument -/

/-- A SHA-256 digest always has 32 bytes. -/
theorem sha256_length (msg : List Nat) : (sha256 msg).length = 32 := by
  unfold sha256
  dsimp only
  simp [u32be]

/-- Every byte of a SHA-256 digest is below 256. -/
theorem sha256_bytes_lt (msg : List Nat) : ∀ b ∈ sha256 msg, b < 256 := by
  intro b hb
  unfold sha256 at hb
  dsimp only at hb
  simp only [u32be, List.mem_append, List.mem_cons, List.not_mem_nil, or_false] at hb
  omega

/-- A list of valid bytes denotes a value below `256 ^ length`. -/
theorem bytesToNat_lt (l : List Nat) (h : ∀ b ∈ l, b < 256) :
    bytesToNat l < 256 ^ l.length := by
  induction l with
  | nil => simp [bytesToNat]
  | cons b t ih =>
    have hb : b < 256 := h b (by simp)
    have ht := ih fun x hx => h x (by simp [hx])
    simp only [bytesToNat, List.length_cons]
    calc b * 256 ^ t.length + bytesToNat t
        < b * 256 ^ t.length + 256 ^ t.length := Nat.add_lt_add_left ht _
      _ = (b + 1) * 256 ^ t.length := by rw [Nat.succ_mul]
      _ ≤ 256 * 256 ^ t.length := Nat.mul_le_mul_right _ (by omega)
      _ = 256 ^ (t.length + 1) := by rw [pow_succ, Nat.mul_comm]

/-- `bytesToNat` is injective on valid byte lists of equal length. -/
theorem bytesToNat_inj : ∀ l1 l2 : List Nat, l1.length = l2.length →
    (∀ b ∈ l1, b < 256) → (∀ b ∈ l2, b < 256) → bytesToNat l1 = bytesToNat l2 → l1 = l2 := by
  intro l1
  induction l1 with
  | nil =>
    intro l2 hlen _ _ _
    cases l2 with
    | nil => rfl
    | cons c s => simp at hlen
  | cons b t ih =>
    intro l2 hlen h1 h2 heq
    cases l2 with
    | nil => simp at hlen
    | cons c s =>
      have hts : t.length = s.length := by simpa using hlen
      simp only [bytesToNat, hts] at heq
      have hp : 0 < 256 ^ s.length := pow_pos (by norm_num) _
      have hbt := bytesToNat_lt t fun x hx => h1 x (by simp [hx])
      have hbs := bytesToNat_lt s fun x hx => h2 x (by simp [hx])
      rw [hts] at hbt
      have e1 : (b * 256 ^ s.length + bytesToNat t) / 256 ^ s.length = b := by
        rw [Nat.mul_comm, Nat.mul_add_div hp, Nat.div_eq_of_lt hbt, Nat.add_zero]
      have e2 : (c * 256 ^ s.length + bytesToNat s) / 256 ^ s.length = c := by
        rw [Nat.mul_comm, Nat.mul_add_div hp, Nat.div_eq_of_lt hbs, Nat.add_zero]
      rw [heq, e2] at e1
      subst e1
      have ht' : bytesToNat t = bytesToNat s := by omega
      rw [ih s hts (fun x hx => h1 x (by simp [hx])) (fun x hx => h2 x (by simp [hx])) ht']

/-- `natToBytes` produces exactly `n` bytes. -/
theorem natToBytes_length (n k : Nat) : (natToBytes n k).length = n := by
  induction n with
  | zero => rfl
  | succ n ih => simp [natToBytes, ih]

/-- `natToBytes` produces valid bytes. -/
theorem natToBytes_lt (n k : Nat) : ∀ b ∈ natToBytes n k, b < 256 := by
  induction n with
  | zero => simp [natToBytes]
  | succ n ih =>
    intro b hb
    simp only [natToBytes, List.mem_cons] at hb
    rcases hb with rfl | hb
    · omega
    · exact ih b hb

/-- The value of the `n`-byte encoding of `k` is `k % 256 ^ n`. -/
theorem bytesToNat_natToBytes (n k : Nat) : bytesToNat (natToBytes n k) = k % 256 ^ n := by
  induction n with
  | zero => simp [natToBytes, bytesToNat, Nat.mod_one]
  | succ n ih =>
    simp only [natToBytes, bytesToNat, natToBytes_length, ih]
    have h1 : k % 256 ^ (n + 1) / 256 ^ n = k / 256 ^ n % 256 := by
      rw [pow_succ]
      exact Nat.mod_mul_right_div_self k (256 ^ n) 256
    have h2 : k % 256 ^ (n + 1) % 256 ^ n = k % 256 ^ n :=
      Nat.mod_mod_of_dvd k ⟨256, pow_succ 256 n⟩
    have h3 := Nat.div_add_mod (k % 256 ^ (n + 1)) (256 ^ n)
    rw [h1, h2] at h3
    rw [← h3]
    ring

/-- SHA-256, as a function on arbitrary-length byte strings, provably has a
collision: mapping the 2^264 distinct 33-byte strings into 2^256 possible
digests cannot be injective. -/
theorem sha256_collision : ∃ s s' : List Nat, s ≠ s' ∧ sha256 s = sha256 s' := by
  have hcard : Fintype.card (Fin (2 ^ 256)) < Fintype.card (Fin (2 ^ 264)) := by
    simp only [Fintype.card_fin]
    norm_num
  have hlt : ∀ k : Nat, sha256DigestVal k < 2 ^ 256 := by
    intro k
    have h1 := bytesToNat_lt (sha256 (natToBytes 33 k)) (sha256_bytes_lt _)
    rw [sha256_length] at h1
    calc sha256DigestVal k < 256 ^ 32 := h1
      _ ≤ 2 ^ 256 := by norm_num
  obtain ⟨k1, k2, hne, heq⟩ := Fintype.exists_ne_map_eq_of_card_lt
    (fun k : Fin (2 ^ 264) => (⟨sha256DigestVal (k : Nat), hlt _⟩ : Fin (2 ^ 256)))
    hcard
  refine ⟨natToBytes 33 (k1 : Nat), natToBytes 33 (k2 : Nat), ?_, ?_⟩
  · intro hcontra
    apply hne
    have hmod : (k1 : Nat) % 256 ^ 33 = (k2 : Nat) % 256 ^ 33 := by
      rw [← bytesToNat_natToBytes, ← bytesToNat_natToBytes, hcontra]
    have hk1 : (k1 : Nat) < 256 ^ 33 := by
      calc (k1 : Nat) < 2 ^ 264 := k1.isLt
        _ ≤ 256 ^ 33 := by norm_num
    have hk2 : (k2 : Nat) < 256 ^ 33 := by
      calc (k2 : Nat) < 2 ^ 264 := k2.isLt
        _ ≤ 256 ^ 33 := by norm_num
    rw [Nat.mod_eq_of_lt hk1, Nat.mod_eq_of_lt hk2] at hmod
    exact Fin.ext hmod
  · have hv : sha256DigestVal (k1 : Nat) = sha256DigestVal (k2 : Nat) := by
      have h := congrArg Fin.val heq
      simpa using h
    exact bytesToNat_inj _ _ (by rw [sha256_length, sha256_length])
      (sha256_bytes_lt _) (sha256_bytes_lt _) hv

/-- C4 counterexample: the clause "verifySecret(s', SHA256(s)) is false for
every s' whose bytes differ from s" is false of SHA-256 itself: by the
pigeonhole principle two distinct byte strings share a digest, and for such
a pair the verifier accepts the other preimage. -/
theorem verifySecret_not_injective :
    ¬∀ s s' : List Nat, s' ≠ s → verifySecret s' (sha256 s) = false := by
  intro hall
  obtain ⟨s, s', hne, heq⟩ := sha256_collision
  have hfalse := hall s s' fun h => hne h.symm
  rw [verifySecret, heq] at hfalse
  simp at hfalse

/-- C4 amended: `verifySecret(s, h)` is true iff the SHA-256 digest of the
bytes of `s` equals the bytes of `h`; `verifySecret(s, SHA256(s))` is true
for every secret (in particular every 32-byte one); and
`verifySecret(s', SHA256(s))` is false exactly for those `s'` whose digest
differs from that of `s` — byte inequality alone cannot suffice, since
SHA-256 on arbitrary-length inputs has collisions. -/
theorem verifySecret_spec (s s' h : List Nat) :
    (verifySecret s h = true ↔ sha256 s = h) ∧
    verifySecret s (sha256 s) = true ∧
    (verifySecret s' (sha256 s) = false ↔ sha256 s' ≠ sha256 s) := by
  refine ⟨?_, ?_, ?_⟩ <;> simp [verifySecret]

/-- Witness for the amended C4: concrete acceptance of a correct pair. -/
theorem verifySecret_spec_witness :
    verifySecret (natToBytes 32 42) (sha256 (natToBytes 32 42)) = true :=
  (verifySecret_spec (natToBytes 32 42) [] []).2.1

/-- Known-answer check tying the embedded SHA-256 to FIPS 180-4: the digest
of the three bytes of the string abc. -/
theorem sha256_known_answer :
    sha256 [97, 98, 99] =
      [186, 120, 22, 191, 143, 1, 207, 234, 65, 65, 64, 222, 93, 174, 34, 35,
       176, 3, 97, 163, 150, 23, 122, 156, 180, 16, 255, 97, 242, 0, 21, 173] := by
  decide

end CryptoSwap
